import Mathlib

/-!
Shallow embedding of the CFE/CFT/LFR data layer (`src/data.py`) and forum
scraper (`src/scraping.py`).

Python strings are modelled as Lean `String` (lists of characters via
`String.data`); Python dicts are modelled as association lists that keep
insertion order, with update-in-place/append-at-end semantics mirroring
CPython dicts.  Exceptions raised by the Python code are modelled with
`Except PyErr`.  Time is an abstract `Nat` number of seconds, and the
network is an oracle `String → Except String payload` where `.error`
stands for any transport or HTTP-status failure (`requests` exception or
`raise_for_status`).
-/

deriving instance DecidableEq for Except

namespace CFE

/-- Python exception values the embedded code can raise. -/
inductive PyErr where
  | valueError (msg : String)
  | nameError (msg : String)
  | keyError (key : String)
deriving DecidableEq, Repr

/-! ### Python string primitives -/

/-- `str.split(sep)` for a one-character separator `sep`, CPython
semantics: empty pieces are kept (`'a//b'.split('/') == ['a','','b']`). -/
def splitChar (sep : Char) : List Char → List (List Char)
  | [] => [[]]
  | c :: cs =>
    match splitChar sep cs with
    | [] => [[]]
    | p :: ps => if c = sep then [] :: p :: ps else (c :: p) :: ps

/-- `str.split(sep)` for a general non-empty separator string: split at
each leftmost non-overlapping occurrence of `sep`, keeping empty pieces.
`fuel` bounds the recursion; callers pass the length of the input, which
always suffices because each step consumes at least one character. -/
def splitSeqAux (sep : List Char) : Nat → List Char → List (List Char)
  | _, [] => [[]]
  | 0, l => [l]
  | fuel + 1, c :: t =>
    if sep.isPrefixOf (c :: t) then
      [] :: splitSeqAux sep fuel ((c :: t).drop sep.length)
    else
      match splitSeqAux sep fuel t with
      | [] => [[]]
      | p :: ps => (c :: p) :: ps

/-- `s.split(sep)` for a non-empty separator `sep` (Python raises
`ValueError` on an empty separator; callers check that first). -/
def pySplit (s sep : List Char) : List (List Char) :=
  splitSeqAux sep s.length s

/-- `s.split(sep)[-1]` for a one-character separator: the trailing
component.  `split` never returns an empty list, so the default is
unreachable. -/
def pyLastComponent (s : List Char) (sep : Char) : List Char :=
  (splitChar sep s).getLastD []

/-- Python `str.isalpha()` for one character (the app only feeds ASCII). -/
def pyIsAlphaChar (c : Char) : Bool := c.isAlpha

/-- Python `str.isalpha()`: true iff the string is non-empty and every
character is alphabetic (`''.isalpha()` is `False`). -/
def pyIsAlpha (s : String) : Bool := !s.data.isEmpty && s.data.all pyIsAlphaChar

/-- Truthiness of a Python value that is either a string or `None`:
`None` and `''` are falsy. -/
def truthy : Option String → Bool
  | some s => s != ""
  | none => false

/-! ### Fetch/cache layer (`data.py`: `fetch_data`, decorated with
`@st.cache_data(ttl=3600)`) -/

/-- One memoized entry of the `st.cache_data` store: the argument pair
`(endpoint, version)` it was computed for, the time it was stored, and
the stored return value. -/
structure CacheEntry (α : Type) where
  endpoint : String
  version : Nat
  time : Nat
  value : α
deriving DecidableEq, Repr

/-- An entry is fresh at time `now` iff less than the 3600-second TTL has
elapsed since it was stored. -/
def freshAt (now : Nat) (e : CacheEntry α) : Bool := decide (now < e.time + 3600)

/-- Outcome of one `fetch_data` call: the returned payload, the cache
afterwards, whether `st.warning` was issued, and whether an actual
network request was made (false on a cache hit). -/
structure FetchResult (α : Type) where
  value : α
  cache : List (CacheEntry α)
  warned : Bool
  netCalled : Bool
deriving DecidableEq, Repr

/-- `fetch_data(endpoint, version)` (data.py:27-43).  The
`@st.cache_data(ttl=3600)` decorator memoizes on the argument pair: a
fresh cached entry is returned as-is; otherwise the GET is issued, and on
any exception (`requests` transport error or `raise_for_status`) the
function warns and returns the empty dict `emptyDict`, which is then
cached like any other return value.  `version` is a dummy argument that
only varies the cache key. -/
def fetch_data (net : String → Except String α) (emptyDict : α) (now : Nat)
    (cache : List (CacheEntry α)) (endpoint : String) (version : Nat) :
    FetchResult α :=
  match cache.find? (fun e => e.endpoint == endpoint && e.version == version
                              && freshAt now e) with
  | some e => ⟨e.value, cache, false, false⟩
  | none =>
    match net endpoint with
    | .ok v => ⟨v, ⟨endpoint, version, now, v⟩ :: cache, false, true⟩
    | .error _ => ⟨emptyDict, ⟨endpoint, version, now, emptyDict⟩ :: cache, true, true⟩

/-! ### Version counters (`data.py`: `get_version`) -/

/-- `st.session_state.refresh[key]` for `defaultdict(int)`: missing keys
read as `0`. -/
def lookup0 : List (String × Nat) → String → Nat
  | [], _ => 0
  | p :: ps, k => if p.1 = k then p.2 else lookup0 ps k

/-- Dict assignment `d[k] = v`: replace in place if present, else append
(CPython insertion order). -/
def setKey : List (String × Nat) → String → Nat → List (String × Nat)
  | [], k, v => [(k, v)]
  | p :: ps, k, v => if p.1 = k then (k, v) :: ps else p :: setKey ps k v

/-- `get_version(key, increment)` (data.py:46-51): if `increment` is
truthy, `refresh[key] += 1`; return `refresh[key]`.  The state is the
`refresh` defaultdict (created empty at session start); the defaultdict's
silent creation of a `0` entry on read is invisible through `lookup0`, so
the non-incrementing read is modelled as leaving the store unchanged. -/
def get_version (refresh : List (String × Nat)) (key : String)
    (increment : Bool) : Nat × List (String × Nat) :=
  let refresh1 := if increment then setKey refresh key (lookup0 refresh key + 1)
                  else refresh
  (lookup0 refresh1 key, refresh1)

/-- A session-long sequence of `get_version` calls: each operation is a
key together with its `increment` flag; the result is the final counter
store. -/
def runOps (refresh : List (String × Nat)) (ops : List (String × Bool)) :
    List (String × Nat) :=
  ops.foldl (fun st op => (get_version st op.1 op.2).2) refresh

/-- Session state shared by the derived accessors: the version counters
and the `st.cache_data` store. -/
structure ApiState (α : Type) where
  refresh : List (String × Nat)
  cache : List (CacheEntry α)
deriving DecidableEq, Repr

/-- The endpoint built by `get_match_data` (data.py:122-139): if the
given id contains a `'/'`, keep only the trailing component
(`match_id.split('/')[-1]`); then prepend `"match/"`. -/
def matchEndpoint (match_id : String) : String :=
  let mid := if match_id.data.contains '/'
             then String.mk (pyLastComponent match_id.data '/')
             else match_id
  "match/" ++ mid

/-- `get_match_data(match_id, force_refresh)` (data.py:122-139): strip a
URL prefix down to the trailing id, then
`fetch_data("match/" + id, get_version('match', force_refresh))`. -/
def get_match_data (net : String → Except String α) (emptyDict : α) (now : Nat)
    (st : ApiState α) (match_id : String) (force_refresh : Bool) :
    FetchResult α × ApiState α :=
  let gv := get_version st.refresh "match" force_refresh
  let r := fetch_data net emptyDict now st.cache (matchEndpoint match_id) gv.1
  (r, ⟨gv.2, r.cache⟩)

/-- `get_club_data(club_id, force_refresh)` (data.py:53-74):
`fetch_data("club/" + club_id, get_version('club', force_refresh))`. -/
def get_club_data (net : String → Except String α) (emptyDict : α) (now : Nat)
    (st : ApiState α) (club_id : String) (force_refresh : Bool) :
    FetchResult α × ApiState α :=
  let gv := get_version st.refresh "club" force_refresh
  let r := fetch_data net emptyDict now st.cache ("club/" ++ club_id) gv.1
  (r, ⟨gv.2, r.cache⟩)

/-- `get_club_matches(club_id, force_refresh)` (data.py:96-110). -/
def get_club_matches (net : String → Except String α) (emptyDict : α) (now : Nat)
    (st : ApiState α) (club_id : String) (force_refresh : Bool) :
    FetchResult α × ApiState α :=
  get_club_data net emptyDict now st (club_id ++ "/matches") force_refresh

/-! ### Status normalization (`data.py`: `STATUS`, `normalize_status`) -/

/-- The `STATUS` tuple (data.py:148).  Note that it has FOUR elements:
the three canonical statuses and the empty string. -/
def STATUS : List String := ["finished", "in_progress", "registered", ""]

/-- The `status` argument of `normalize_status`/`get_player_matches`: a
single string, or a sequence (list/tuple) of strings.  A Python `set`
argument is covered by `seq` for every possible iteration order, since
all theorems below quantify over the sequence. -/
inductive StatusArg where
  | str (s : String)
  | seq (l : List String)
deriving DecidableEq, Repr

/-- The second phase of `normalize_status` (data.py:232-242): if every
token is already a member of the `STATUS` tuple, the tokens are returned
unchanged; otherwise the abbreviation-resolution branch runs
`next(ss for ss in standard if ...)` (data.py:235), and the global name
`standard` is defined nowhere in the repository, so creating that inner
generator raises `NameError` for the first token processed (the
processed set is non-empty because some token is outside `STATUS`). -/
def statusResolve (tokens : List String) : Except PyErr (List String) :=
  if tokens.all (fun s => STATUS.contains s) then .ok tokens
  else .error (.nameError "standard")

/-- `normalize_status(status)` (data.py:211-242).  String inputs are
tokenized first: a string with a non-alphabetic character (or the empty
string) is split on the concatenation of its non-alphabetic characters,
dropping empty pieces (`status.split('')` raises `ValueError` when that
concatenation is empty, i.e. for the empty string); an all-alphabetic
string shorter than `len(STATUS) = 4` becomes its individual characters;
any other all-alphabetic string becomes a one-token tuple. -/
def normalize_status (status : StatusArg) : Except PyErr (List String) :=
  match status with
  | .str s =>
    if !(pyIsAlpha s) then
      let separators := s.data.filter (fun c => !(pyIsAlphaChar c))
      if separators.isEmpty then .error (.valueError "empty separator")
      else statusResolve
        (((pySplit s.data separators).map String.mk).filter (fun t => t != ""))
    else if s.length < STATUS.length then
      statusResolve (s.data.map (fun c => String.mk [c]))
    else statusResolve [s]
  | .seq l => statusResolve l

/-! ### Player matches (`data.py`: `get_player_matches`) -/

/-- One match-info dict from `player/{username}/matches`.  The code only
reads the string-valued fields `'@id'` and `'url'`, so fields are
modelled as string-valued. -/
abbrev MatchInfo := List (String × String)

/-- The value of `joueurs[username]`: a dict from status to a list of
match infos. -/
abbrev PlayerMatches := List (String × List MatchInfo)

/-- `st.session_state.joueurs`: a dict from username to its record. -/
abbrev Joueurs := List (String × PlayerMatches)

/-- Python `m.get(k)` on a string-valued dict. -/
def pyGet (m : MatchInfo) (k : String) : Option String :=
  (m.find? (fun p => p.1 == k)).map (fun p => p.2)

/-- Dict lookup `rec[s]`/`s in rec` on a player record. -/
def pmLookup (pm : PlayerMatches) (s : String) : Option (List MatchInfo) :=
  (pm.find? (fun p => p.1 == s)).map (fun p => p.2)

/-- Dict lookup on `joueurs`. -/
def jLookup (j : Joueurs) (u : String) : Option PlayerMatches :=
  (j.find? (fun p => p.1 == u)).map (fun p => p.2)

/-- Dict assignment on a player record (replace in place or append). -/
def pmSet : PlayerMatches → String → List MatchInfo → PlayerMatches
  | [], k, v => [(k, v)]
  | p :: ps, k, v => if p.1 = k then (k, v) :: ps else p :: pmSet ps k v

/-- Dict assignment on `joueurs`. -/
def jSet : Joueurs → String → PlayerMatches → Joueurs
  | [], k, v => [(k, v)]
  | p :: ps, k, v => if p.1 = k then (k, v) :: ps else p :: jSet ps k v

/-- Python `d |= other` on a player record: every key of `other` is
assigned into `d` in iteration order, so keys present in both end up
with `other`'s value (right-biased union). -/
def pmUnion (d other : PlayerMatches) : PlayerMatches :=
  other.foldl (fun acc p => pmSet acc p.1 p.2) d

/-- One element of the returned list (data.py:206-208):
`m if as_dict or not(((id := m.get('@id')) or (id := m.get('url'))) and
(id := id.split('/')[-1])) else id`.  With `as_dict` the short-circuit
yields the dict itself; otherwise the first truthy of `m['@id']`,
`m['url']` is reduced to its trailing `/`-component, and the dict itself
is yielded when no truthy id (or a truthy id with empty trailing
component) is found. -/
def renderMatch (as_dict : Bool) (m : MatchInfo) : Sum MatchInfo String :=
  if as_dict then .inl m
  else
    let id0 := pyGet m "@id"
    let id1 := if truthy id0 then id0 else pyGet m "url"
    match id1 with
    | some s =>
      if s != "" then
        let t := String.mk (pyLastComponent s.data '/')
        if t != "" then .inr t else .inl m
      else .inl m
    | none => .inl m

/-- The final list comprehension of `get_player_matches`:
`[... for s in status for m in joueurs[username][s]]`; a status absent
from the record raises `KeyError` at the point of use. -/
def listedMatches (as_dict : Bool) (rec : PlayerMatches) :
    List String → Except PyErr (List (Sum MatchInfo String))
  | [] => .ok []
  | s :: rest =>
    match pmLookup rec s with
    | none => .error (.keyError s)
    | some ms =>
      match listedMatches as_dict rec rest with
      | .error e => .error e
      | .ok l => .ok (ms.map (renderMatch as_dict) ++ l)

/-- The tokens iterated by `for x in status` and by the membership test
`all(x in STATUS for x in status)` (data.py:183): the characters for a
string, the elements for a sequence. -/
def statusArgTokens : StatusArg → List String
  | .str s => s.data.map (fun c => String.mk [c])
  | .seq l => l

/-- `status` after data.py:183-184: left as-is when every iterated token
is already in `STATUS` (for a string that only happens when it is empty),
otherwise replaced by `normalize_status(status)`. -/
def resolveStatusArg (status : StatusArg) : Except PyErr (List String) :=
  if (statusArgTokens status).all (fun s => STATUS.contains s) then
    .ok (statusArgTokens status)
  else normalize_status status

instance : DecidableEq PlayerMatches := inferInstance

instance : DecidableEq Joueurs := inferInstance

/-- Outcome of one `get_player_matches` call: the returned list (or the
exception raised), the `joueurs` store afterwards, whether the fetch
layer was invoked, and whether a failure warning was reported. -/
structure PMResult where
  ret : Except PyErr (List (Sum MatchInfo String))
  joueurs : Joueurs
  netCalled : Bool
  warned : Bool
deriving DecidableEq, Repr

/-- `get_player_matches(username, status, as_dict)` (data.py:150-208).
An empty username raises `ValueError` immediately.  The status argument
is normalized if needed.  `joueurs[username]` is created empty if absent.
If some requested status is missing from the record, the matches are
fetched through the fetch layer (`netP` is `fetch_data` specialized to
the `player/{username}/matches` payload shape: a network failure warns
and yields the empty dict).  A non-empty fetched dict is merged with
`joueurs[username] |= player_matches`; an empty one reaches
`display(...)` (data.py:203), a name defined nowhere in the repository,
raising `NameError`.  Finally the per-status lists are rendered. -/
def get_player_matches (netP : String → Except String PlayerMatches)
    (joueurs : Joueurs) (username : String) (status : StatusArg)
    (as_dict : Bool) : PMResult :=
  if username = "" then
    ⟨.error (.valueError "Username must be given"), joueurs, false, false⟩
  else
    match resolveStatusArg status with
    | .error e => ⟨.error e, joueurs, false, false⟩
    | .ok sts =>
      let rec0 := (jLookup joueurs username).getD []
      let joueurs1 := if (jLookup joueurs username).isSome then joueurs
                      else jSet joueurs username []
      if sts.all (fun s => (pmLookup rec0 s).isSome) then
        ⟨listedMatches as_dict rec0 sts, joueurs1, false, false⟩
      else
        let fetched := netP ("player/" ++ username ++ "/matches")
        let pm : PlayerMatches := match fetched with
          | .ok v => v
          | .error _ => []
        let warned : Bool := match fetched with
          | .ok _ => false
          | .error _ => true
        if pm.isEmpty then
          ⟨.error (.nameError "display"), joueurs1, true, warned⟩
        else
          let rec1 := pmUnion rec0 pm
          ⟨listedMatches as_dict rec1 sts, jSet joueurs1 username rec1, true, warned⟩

/-! ### Forum scraper (`scraping.py`: `get_matches`) -/

/-- The character class of the default pattern's slug segment, `[\w-]`:
word characters (letters, digits, underscore) and the hyphen. -/
def isWordDashChar (c : Char) : Bool := c.isAlphanum || c == '_' || c == '-'

/-- One attempted match of the default pattern
`matches/(?:[\w-]+/)?(\d+)` anchored at the start of `l`, returning the
captured digit group and the remainder after the whole match.  The
backtracking of the greedy optional slug group collapses to: after
`"matches/"`, the maximal `[\w-]` run can be the slug only if it is
non-empty and immediately followed by `'/'` and a digit (no shorter
prefix of the run can be followed by `'/'`, since `'/'` is not a `[\w-]`
character); otherwise the group matches empty and `\d+` must start right
after `"matches/"`. -/
def matchAtPos (l : List Char) : Option (List Char × List Char) :=
  if ("matches/".data).isPrefixOf l then
    let rest := l.drop 8
    let run := rest.takeWhile isWordDashChar
    let afterRun := rest.drop run.length
    let afterSlash := afterRun.drop 1
    let slugDigits := afterSlash.takeWhile Char.isDigit
    if !run.isEmpty && afterRun.head? == some '/' && !slugDigits.isEmpty then
      some (slugDigits, afterSlash.drop slugDigits.length)
    else
      let digits := rest.takeWhile Char.isDigit
      if !digits.isEmpty then some (digits, rest.drop digits.length) else none
  else none

/-- `re.findall(pattern, html)` for the default pattern: scan left to
right, emitting the captured group of each non-overlapping match and
continuing after its end.  `fuel` bounds the recursion; every step
consumes at least one character, so `l.length` suffices. -/
def findAllAux : Nat → List Char → List (List Char)
  | 0, _ => []
  | _ + 1, [] => []
  | fuel + 1, c :: t =>
    match matchAtPos (c :: t) with
    | some (cap, rest) => cap :: findAllAux fuel rest
    | none => findAllAux fuel t

/-- All captures of the default pattern over the page text, in encounter
order, duplicates kept. -/
def findAll (l : List Char) : List (List Char) := findAllAux l.length l

/-- Helper for `dedupFirst`: keep the elements not yet `seen`, in
order, remembering those kept. -/
def dedupAux {α : Type} [DecidableEq α] (seen : List α) : List α → List α
  | [] => []
  | x :: xs => if x ∈ seen then dedupAux seen xs else x :: dedupAux (x :: seen) xs

/-- `list(dict.fromkeys(xs))`: drop duplicates, keeping the first
occurrence of each element in order. -/
def dedupFirst {α : Type} [DecidableEq α] (l : List α) : List α := dedupAux [] l

/-- The successful branch of `get_matches(url)` (scraping.py:49-78) with
the default pattern, applied to the fetched page text:
`list(dict.fromkeys(re.findall(pattern, html_content)))`, as strings. -/
def get_matches (html : String) : List String :=
  (dedupFirst (findAll html.data)).map (fun l => String.mk l)

/-! ## Helper lemmas -/

theorem lookup0_setKey_self (m : List (String × Nat)) (k : String) (v : Nat) :
    lookup0 (setKey m k v) k = v := by
  induction m with
  | nil => simp [setKey, lookup0]
  | cons p ps ih =>
    by_cases h : p.1 = k <;> simp [setKey, lookup0, h, ih]

theorem lookup0_setKey_ne (m : List (String × Nat)) (k : String) (v : Nat)
    (k' : String) (h : k' ≠ k) : lookup0 (setKey m k v) k' = lookup0 m k' := by
  induction m with
  | nil => simp [setKey, lookup0, h.symm]
  | cons p ps ih =>
    by_cases hp : p.1 = k
    · simp [setKey, lookup0, hp, h.symm]
    · simp only [setKey, hp, if_false, lookup0]
      by_cases hp' : p.1 = k' <;> simp [hp', ih]

theorem lookup0_get_version_le (refresh : List (String × Nat))
    (key : String) (increment : Bool) (k : String) :
    lookup0 refresh k ≤ lookup0 (get_version refresh key increment).2 k := by
  cases increment with
  | false => simp [get_version]
  | true =>
    simp only [get_version]
    by_cases h : k = key
    · subst h
      simp [lookup0_setKey_self]
    · simp [lookup0_setKey_ne _ _ _ _ h]

theorem lookup0_runOps_le (ops : List (String × Bool)) :
    ∀ (refresh : List (String × Nat)) (k : String),
      lookup0 refresh k ≤ lookup0 (runOps refresh ops) k := by
  induction ops with
  | nil => intro refresh k; simp [runOps]
  | cons op rest ih =>
    intro refresh k
    calc lookup0 refresh k ≤ lookup0 (get_version refresh op.1 op.2).2 k :=
          lookup0_get_version_le refresh op.1 op.2 k
      _ ≤ lookup0 (runOps (get_version refresh op.1 op.2).2 rest) k := ih _ k
      _ = lookup0 (runOps refresh (op :: rest)) k := by simp [runOps, List.foldl_cons]

/-! ## C10: `get_version` reads, increments and monotonicity -/

/-- C10: `get_version` with `increment` false returns the current counter
(`0` on first ever access, the state being the empty store) and leaves
every counter unchanged; with `increment` true it returns exactly one
more than the previous value for the key, stores that value, and changes
no other key's counter; and across any session-long sequence of
`get_version` calls every counter is non-decreasing (counters are
naturals, hence non-negative). -/
theorem C10_get_version_counter_semantics :
    (∀ (refresh : List (String × Nat)) (key : String),
      (get_version refresh key false).1 = lookup0 refresh key
      ∧ (get_version refresh key false).2 = refresh)
    ∧ (∀ key : String, (get_version [] key false).1 = 0)
    ∧ (∀ (refresh : List (String × Nat)) (key : String),
      (get_version refresh key true).1 = lookup0 refresh key + 1
      ∧ lookup0 (get_version refresh key true).2 key = lookup0 refresh key + 1
      ∧ ∀ k : String, k ≠ key →
          lookup0 (get_version refresh key true).2 k = lookup0 refresh k)
    ∧ (∀ (refresh : List (String × Nat)) (ops : List (String × Bool)) (k : String),
      lookup0 refresh k ≤ lookup0 (runOps refresh ops) k) := by
  refine ⟨fun refresh key => ⟨by simp [get_version], by simp [get_version]⟩,
    fun key => by simp [get_version, lookup0],
    fun refresh key => ⟨by simp [get_version, lookup0_setKey_self],
      by simp [get_version, lookup0_setKey_self],
      fun k hk => by simp [get_version, lookup0_setKey_ne _ _ _ _ hk]⟩,
    fun refresh ops k => lookup0_runOps_le ops refresh k⟩

/-- Witness for C10 at concrete inputs. -/
theorem C10_get_version_counter_semantics_witness :
    (get_version [] "club" false).1 = lookup0 [] "club"
    ∧ (get_version [] "club" false).1 = 0
    ∧ (get_version [("club", 2), ("match", 1)] "club" true).1
        = lookup0 [("club", 2), ("match", 1)] "club" + 1
    ∧ lookup0 (get_version [("club", 2), ("match", 1)] "club" true).2 "match"
        = lookup0 [("club", 2), ("match", 1)] "match"
    ∧ lookup0 [("club", 2)] "club"
        ≤ lookup0 (runOps [("club", 2)] [("club", true), ("match", true)]) "club" :=
  ⟨(C10_get_version_counter_semantics.1 [] "club").1,
    C10_get_version_counter_semantics.2.1 "club",
    (C10_get_version_counter_semantics.2.2.1 _ "club").1,
    (C10_get_version_counter_semantics.2.2.1 _ "club").2.2 "match" (by decide),
    C10_get_version_counter_semantics.2.2.2 _ _ "club"⟩

/-! ## C3: a version bump changes the cache key and bypasses the cache -/

/-- C3: for any logical key, `get_version(key, increment=True)` (as
called by an accessor with a truthy `force_refresh`) returns one more
than the current counter, so the `(endpoint, version)` cache key differs
from the current one; and a fetch with the bumped version issues a
network request whenever every cached entry for that endpoint carries a
version at most the current counter — with no freshness assumption, so
the cached entry is bypassed even if its one-hour TTL has not expired. -/
theorem C3_version_bump_bypasses_cache {α : Type}
    (net : String → Except String α) (emptyDict : α) (now : Nat)
    (cache : List (CacheEntry α)) (refresh : List (String × Nat))
    (key endpoint : String) :
    (get_version refresh key true).1 = lookup0 refresh key + 1
    ∧ (endpoint, (get_version refresh key true).1)
        ≠ (endpoint, lookup0 refresh key)
    ∧ ((∀ e ∈ cache, e.endpoint = endpoint → e.version ≤ lookup0 refresh key) →
      (fetch_data net emptyDict now cache endpoint
        (get_version refresh key true).1).netCalled = true) := by
  have hv : (get_version refresh key true).1 = lookup0 refresh key + 1 := by
    simp [get_version, lookup0_setKey_self]
  refine ⟨hv, by simp [hv], fun hle => ?_⟩
  have hnone : cache.find? (fun e => e.endpoint == endpoint
      && e.version == (get_version refresh key true).1 && freshAt now e) = none := by
    refine List.find?_eq_none.mpr (fun e he hpred => ?_)
    simp only [Bool.and_eq_true, beq_iff_eq] at hpred
    have := hle e he hpred.1.1
    rw [hpred.1.2, hv] at this
    omega
  cases h : net endpoint <;> simp [fetch_data, hnone, h]

/-- Witness for C3 at concrete inputs: a cache holding a fresh entry for
the endpoint at the current version. -/
theorem C3_version_bump_bypasses_cache_witness :
    (get_version [("club", 4)] "club" true).1 = lookup0 [("club", 4)] "club" + 1
    ∧ ("club/martinique", (get_version [("club", 4)] "club" true).1)
        ≠ ("club/martinique", lookup0 [("club", 4)] "club")
    ∧ (fetch_data (fun _ => Except.ok ([("name", "Martinique")] : List (String × String)))
        [] 10 [⟨"club/martinique", 4, 9, [("name", "cached")]⟩] "club/martinique"
        (get_version [("club", 4)] "club" true).1).netCalled = true := by
  have h := C3_version_bump_bypasses_cache
    (fun _ => Except.ok ([("name", "Martinique")] : List (String × String)))
    [] 10 [⟨"club/martinique", 4, 9, [("name", "cached")]⟩] [("club", 4)]
    "club" "club/martinique"
  exact ⟨h.1, h.2.1, h.2.2 (by decide)⟩

/-! ## C4: cached reads are idempotent within the TTL -/

theorem find?_fetch_pred_stable {α : Type} (endpoint : String)
    (version : Nat) (t1 t2 : Nat) (h12 : t1 ≤ t2) :
    ∀ (cache : List (CacheEntry α)) (e : CacheEntry α),
      cache.find? (fun x => x.endpoint == endpoint && x.version == version
        && freshAt t1 x) = some e →
      freshAt t2 e = true →
      cache.find? (fun x => x.endpoint == endpoint && x.version == version
        && freshAt t2 x) = some e
  | [], e, h, _ => by simp at h
  | c :: cs, e, h, hf => by
    simp only [List.find?] at h ⊢
    cases hp : (c.endpoint == endpoint && c.version == version && freshAt t1 c) with
    | true =>
      rw [hp] at h
      have hce : c = e := by injection h
      subst hce
      simp only [Bool.and_eq_true] at hp
      simp [hp.1.1, hp.1.2, hf]
    | false =>
      rw [hp] at h
      have hp2 : (c.endpoint == endpoint && c.version == version
          && freshAt t2 c) = false := by
        cases hq : (c.endpoint == endpoint && c.version == version
            && freshAt t2 c) with
        | false => rfl
        | true =>
          simp only [Bool.and_eq_true] at hq
          have hfr1 : freshAt t1 c = true := by
            simp only [freshAt, decide_eq_true_eq] at hq ⊢
            omega
          rw [show (c.endpoint == endpoint && c.version == version
              && freshAt t1 c) = true from by
            simp [hq.1.1, hq.1.2, hfr1]] at hp
          cases hp
      rw [hp2]
      exact find?_fetch_pred_stable endpoint version t1 t2 h12 cs e h hf

/-- C4: repeated `fetch_data` calls with the same `(endpoint, version)`
key are idempotent within the TTL: (cold start) when the first call at
`t1` finds no fresh entry, it caches its result and a second call at any
`t2` within 3600 seconds of `t1` returns the identical payload with no
network request and no cache change; (warm) when the first call hits a
fresh cached entry, a second call at any `t2 ≥ t1` still within that
entry's TTL returns the identical payload with no network request and no
cache change. -/
theorem C4_fetch_idempotent_within_ttl {α : Type}
    (net : String → Except String α) (emptyDict : α) (t1 t2 : Nat)
    (cache : List (CacheEntry α)) (endpoint : String) (version : Nat)
    (h12 : t1 ≤ t2) :
    ((∀ e ∈ cache,
        ¬(e.endpoint = endpoint ∧ e.version = version ∧ freshAt t1 e = true)) →
      t2 < t1 + 3600 →
      (fetch_data net emptyDict t2
          (fetch_data net emptyDict t1 cache endpoint version).cache endpoint
          version).value
        = (fetch_data net emptyDict t1 cache endpoint version).value
      ∧ (fetch_data net emptyDict t2
          (fetch_data net emptyDict t1 cache endpoint version).cache endpoint
          version).cache
        = (fetch_data net emptyDict t1 cache endpoint version).cache
      ∧ (fetch_data net emptyDict t2
          (fetch_data net emptyDict t1 cache endpoint version).cache endpoint
          version).netCalled = false)
    ∧ (∀ e : CacheEntry α,
      cache.find? (fun x => x.endpoint == endpoint && x.version == version
        && freshAt t1 x) = some e →
      freshAt t2 e = true →
      (fetch_data net emptyDict t2
          (fetch_data net emptyDict t1 cache endpoint version).cache endpoint
          version).value
        = (fetch_data net emptyDict t1 cache endpoint version).value
      ∧ (fetch_data net emptyDict t2
          (fetch_data net emptyDict t1 cache endpoint version).cache endpoint
          version).cache
        = (fetch_data net emptyDict t1 cache endpoint version).cache
      ∧ (fetch_data net emptyDict t2
          (fetch_data net emptyDict t1 cache endpoint version).cache endpoint
          version).netCalled = false) := by
  constructor
  · intro hmiss h2
    have hnone : cache.find? (fun e => e.endpoint == endpoint
        && e.version == version && freshAt t1 e) = none := by
      refine List.find?_eq_none.mpr (fun e he hpred => ?_)
      simp only [Bool.and_eq_true, beq_iff_eq] at hpred
      exact hmiss e he ⟨hpred.1.1, hpred.1.2, hpred.2⟩
    have hfresh : freshAt t2 (⟨endpoint, version, t1, emptyDict⟩ : CacheEntry α) = true := by
      simp [freshAt, h2]
    cases h : net endpoint with
    | ok v =>
      have hfresh' : freshAt t2 (⟨endpoint, version, t1, v⟩ : CacheEntry α) = true := by
        simp [freshAt, h2]
      simp [fetch_data, hnone, h, List.find?, hfresh']
    | error msg =>
      simp [fetch_data, hnone, h, List.find?, hfresh]
  · intro e hhit hf
    have hhit2 := find?_fetch_pred_stable endpoint version t1 t2 h12 cache e hhit hf
    simp [fetch_data, hhit, hhit2]

/-- Witness for C4 at concrete inputs: a cold start on an empty cache at
times 0 and 1800, and a warm hit on a cache holding a fresh entry. -/
theorem C4_fetch_idempotent_within_ttl_witness :
    ((fetch_data (fun _ => Except.ok ([("name", "m")] : List (String × String))) [] 1800
        (fetch_data (fun _ => Except.ok ([("name", "m")] : List (String × String)))
          [] 0 [] "match/12803" 0).cache "match/12803" 0).value
      = (fetch_data (fun _ => Except.ok ([("name", "m")] : List (String × String)))
          [] 0 [] "match/12803" 0).value
    ∧ (fetch_data (fun _ => Except.ok ([("name", "m")] : List (String × String))) [] 1800
        (fetch_data (fun _ => Except.ok ([("name", "m")] : List (String × String)))
          [] 0 [] "match/12803" 0).cache "match/12803" 0).cache
      = (fetch_data (fun _ => Except.ok ([("name", "m")] : List (String × String)))
          [] 0 [] "match/12803" 0).cache
    ∧ (fetch_data (fun _ => Except.ok ([("name", "m")] : List (String × String))) [] 1800
        (fetch_data (fun _ => Except.ok ([("name", "m")] : List (String × String)))
          [] 0 [] "match/12803" 0).cache "match/12803" 0).netCalled = false)
    ∧ ((fetch_data (fun _ => Except.ok ([("name", "m")] : List (String × String))) [] 2000
        (fetch_data (fun _ => Except.ok ([("name", "m")] : List (String × String)))
          [] 1000 [⟨"match/12803", 0, 500, [("name", "cached")]⟩]
          "match/12803" 0).cache "match/12803" 0).value
      = (fetch_data (fun _ => Except.ok ([("name", "m")] : List (String × String)))
          [] 1000 [⟨"match/12803", 0, 500, [("name", "cached")]⟩]
          "match/12803" 0).value
    ∧ (fetch_data (fun _ => Except.ok ([("name", "m")] : List (String × String))) [] 2000
        (fetch_data (fun _ => Except.ok ([("name", "m")] : List (String × String)))
          [] 1000 [⟨"match/12803", 0, 500, [("name", "cached")]⟩]
          "match/12803" 0).cache "match/12803" 0).cache
      = (fetch_data (fun _ => Except.ok ([("name", "m")] : List (String × String)))
          [] 1000 [⟨"match/12803", 0, 500, [("name", "cached")]⟩]
          "match/12803" 0).cache
    ∧ (fetch_data (fun _ => Except.ok ([("name", "m")] : List (String × String))) [] 2000
        (fetch_data (fun _ => Except.ok ([("name", "m")] : List (String × String)))
          [] 1000 [⟨"match/12803", 0, 500, [("name", "cached")]⟩]
          "match/12803" 0).cache "match/12803" 0).netCalled = false) :=
  ⟨(C4_fetch_idempotent_within_ttl
      (fun _ => Except.ok ([("name", "m")] : List (String × String))) [] 0 1800 []
      "match/12803" 0 (by decide)).1 (by simp) (by decide),
    (C4_fetch_idempotent_within_ttl
      (fun _ => Except.ok ([("name", "m")] : List (String × String))) [] 1000 2000
      [⟨"match/12803", 0, 500, [("name", "cached")]⟩]
      "match/12803" 0 (by decide)).2
      ⟨"match/12803", 0, 500, [("name", "cached")]⟩ (by decide) (by decide)⟩

/-! ## C2: fetch failures return the empty dict; empty username raises -/

/-- C2: when the GET is actually issued (no fresh cached entry) and the
transport raises, `fetch_data` swallows the exception: it returns the
empty dict and reports a warning, no exception propagating by
construction of the embedding; and `get_player_matches` with an empty
username raises `ValueError` with the store untouched and the network
never invoked, for every status argument. -/
theorem C2_error_handling :
    (∀ (α : Type) (net : String → Except String α) (emptyDict : α) (now : Nat)
      (cache : List (CacheEntry α)) (endpoint : String) (version : Nat) (msg : String),
      (∀ e ∈ cache,
        ¬(e.endpoint = endpoint ∧ e.version = version ∧ freshAt now e = true)) →
      net endpoint = .error msg →
      (fetch_data net emptyDict now cache endpoint version).value = emptyDict
      ∧ (fetch_data net emptyDict now cache endpoint version).warned = true)
    ∧ (∀ (netP : String → Except String PlayerMatches) (joueurs : Joueurs)
      (status : StatusArg) (as_dict : Bool),
      get_player_matches netP joueurs "" status as_dict
        = ⟨.error (.valueError "Username must be given"), joueurs, false, false⟩) := by
  constructor
  · intro α net emptyDict now cache endpoint version msg hmiss herr
    have hnone : cache.find? (fun e => e.endpoint == endpoint
        && e.version == version && freshAt now e) = none := by
      refine List.find?_eq_none.mpr (fun e he hpred => ?_)
      simp only [Bool.and_eq_true, beq_iff_eq] at hpred
      exact hmiss e he ⟨hpred.1.1, hpred.1.2, hpred.2⟩
    simp [fetch_data, hnone, herr]
  · intro netP joueurs status as_dict
    simp [get_player_matches]

/-- Witness for C2 at concrete inputs: a failing network and an empty
cache; an empty username with the default status tuple. -/
theorem C2_error_handling_witness :
    ((fetch_data (fun _ => (Except.error "ConnectionError" : Except String PlayerMatches))
        [] 0 [] "club/martinique" 0).value = []
      ∧ (fetch_data (fun _ => (Except.error "ConnectionError" : Except String PlayerMatches))
        [] 0 [] "club/martinique" 0).warned = true)
    ∧ get_player_matches (fun _ => .ok [("finished", [])]) [] ""
        (.seq ["in_progress", "registered"]) false
      = ⟨.error (.valueError "Username must be given"), [], false, false⟩ :=
  ⟨C2_error_handling.1 PlayerMatches
      (fun _ => (Except.error "ConnectionError" : Except String PlayerMatches))
      [] 0 [] "club/martinique" 0 "ConnectionError" (by simp) rfl,
    C2_error_handling.2 (fun _ => .ok [("finished", [])]) []
      (.seq ["in_progress", "registered"]) false⟩

/-! ## Lemmas about `splitChar`, towards C6 -/

theorem splitChar_ne_nil (sep : Char) : ∀ l : List Char, splitChar sep l ≠ []
  | [] => by simp [splitChar]
  | c :: cs => by
    cases hs : splitChar sep cs with
    | nil => exact absurd hs (splitChar_ne_nil sep cs)
    | cons p ps =>
      simp only [splitChar, hs]
      split <;> simp

theorem splitChar_of_not_mem (sep : Char) :
    ∀ l : List Char, sep ∉ l → splitChar sep l = [l]
  | [], _ => rfl
  | c :: cs, h => by
    have hc : ¬(c = sep) := fun e => h (by simp [e])
    have hcs : sep ∉ cs := fun e => h (List.mem_cons_of_mem c e)
    simp [splitChar, splitChar_of_not_mem sep cs hcs, hc]

theorem two_le_splitChar_length (sep : Char) :
    ∀ l : List Char, sep ∈ l → 2 ≤ (splitChar sep l).length
  | c :: cs, h => by
    simp only [splitChar]
    cases hs : splitChar sep cs with
    | nil => exact absurd hs (splitChar_ne_nil sep cs)
    | cons p ps =>
      by_cases hc : c = sep
      · simp [hc]
      · have hcs : sep ∈ cs := by
          rcases List.mem_cons.mp h with h1 | h1
          · exact absurd h1.symm hc
          · exact h1
        have := two_le_splitChar_length sep cs hcs
        rw [hs] at this
        simp only [List.length_cons] at this ⊢
        simpa [hc] using this

theorem getLastD_irrel {α : Type} (l : List α) (h : l ≠ []) (d d' : α) :
    l.getLastD d = l.getLastD d' := by
  cases l with
  | nil => exact absurd rfl h
  | cons a t => simp only [List.getLastD_cons]

theorem getLastD_splitChar_append (sep : Char) (id : List Char) (hid : sep ∉ id) :
    ∀ q : List Char, (splitChar sep (q ++ sep :: id)).getLastD [] = id
  | [] => by
    simp only [List.nil_append, splitChar, splitChar_of_not_mem sep id hid]
    simp
  | x :: q' => by
    have ih := getLastD_splitChar_append sep id hid q'
    have hmem : sep ∈ q' ++ sep :: id := by simp
    cases hs : splitChar sep (q' ++ sep :: id) with
    | nil => exact absurd hs (splitChar_ne_nil sep _)
    | cons r rs =>
      have hrs : rs ≠ [] := by
        have h2 := two_le_splitChar_length sep _ hmem
        rw [hs] at h2
        simp only [List.length_cons] at h2
        intro e
        rw [e] at h2
        simp at h2
      rw [hs, List.getLastD_cons] at ih
      simp only [List.cons_append, splitChar, List.append_eq, hs]
      by_cases hx : x = sep
      · rw [if_pos hx, List.getLastD_cons, List.getLastD_cons]
        exact ih
      · rw [if_neg hx, List.getLastD_cons, getLastD_irrel rs hrs (x :: r) r]
        exact ih

/-! ## C6: the match accessor is invariant under a URL prefix -/

/-- C6: for every non-empty all-digit match id and every URL prefix
ending in `'/'` (an arbitrary character list `q` followed by `'/'`), the
match accessor builds the same `"match/" + id` endpoint from the
prefixed form and from the bare id, hence (with the unchanged version
counter read by `force_refresh=False`) the same `(endpoint, version)`
cache key, and the whole accessor call returns the same result from the
same session state. -/
theorem C6_match_accessor_prefix_invariant {α : Type}
    (net : String → Except String α) (emptyDict : α) (now : Nat)
    (st : ApiState α) (q id : List Char) (hne : id ≠ [])
    (hdig : ∀ c ∈ id, c.isDigit = true) :
    matchEndpoint (String.mk (q ++ '/' :: id)) = matchEndpoint (String.mk id)
    ∧ matchEndpoint (String.mk id) = "match/" ++ String.mk id
    ∧ (matchEndpoint (String.mk (q ++ '/' :: id)),
        (get_version st.refresh "match" false).1)
      = (matchEndpoint (String.mk id), (get_version st.refresh "match" false).1)
    ∧ get_match_data net emptyDict now st (String.mk (q ++ '/' :: id)) false
      = get_match_data net emptyDict now st (String.mk id) false := by
  have hnotmem : '/' ∉ id := fun hmem => by
    have := hdig '/' hmem
    simp at this
  have hbare : matchEndpoint (String.mk id) = "match/" ++ String.mk id := by
    simp [matchEndpoint, hnotmem]
  have hpre : matchEndpoint (String.mk (q ++ '/' :: id)) = "match/" ++ String.mk id := by
    have h1 := getLastD_splitChar_append '/' id hnotmem q
    rw [List.getLastD_eq_getLast?] at h1
    simp [matchEndpoint, pyLastComponent, h1]
  have heq : matchEndpoint (String.mk (q ++ '/' :: id)) = matchEndpoint (String.mk id) := by
    rw [hbare, hpre]
  exact ⟨heq, hbare, by rw [heq], by rw [get_match_data, get_match_data, heq]⟩

/-- Witness for C6 at the spec's concrete inputs:
`"https://api.chess.com/pub/match/1530241"` versus `"1530241"`. -/
theorem C6_match_accessor_prefix_invariant_witness :
    matchEndpoint (String.mk ("https://api.chess.com/pub/match".data ++ '/' :: "1530241".data))
      = matchEndpoint (String.mk "1530241".data)
    ∧ matchEndpoint (String.mk "1530241".data) = "match/" ++ String.mk "1530241".data
    ∧ (matchEndpoint (String.mk ("https://api.chess.com/pub/match".data ++ '/' :: "1530241".data)),
        (get_version (ApiState.refresh (α := PlayerMatches) ⟨[], []⟩) "match" false).1)
      = (matchEndpoint (String.mk "1530241".data),
        (get_version (ApiState.refresh (α := PlayerMatches) ⟨[], []⟩) "match" false).1)
    ∧ get_match_data (fun _ => .ok [("finished", [])]) ([] : PlayerMatches) 0 ⟨[], []⟩
        (String.mk ("https://api.chess.com/pub/match".data ++ '/' :: "1530241".data)) false
      = get_match_data (fun _ => .ok [("finished", [])]) ([] : PlayerMatches) 0 ⟨[], []⟩
        (String.mk "1530241".data) false :=
  C6_match_accessor_prefix_invariant (fun _ => .ok [("finished", [])]) [] 0 ⟨[], []⟩
    "https://api.chess.com/pub/match".data "1530241".data (by decide) (by decide)

/-! ## C7: a complete record is answered without fetching -/

theorem resolveStatusArg_seq_of_mem (l : List String) (h : ∀ s ∈ l, s ∈ STATUS) :
    resolveStatusArg (.seq l) = .ok l := by
  have hall : (statusArgTokens (.seq l)).all (fun s => STATUS.contains s) = true := by
    simp only [statusArgTokens]
    rw [List.all_eq_true]
    intro x hx
    simpa using h x hx
  rw [resolveStatusArg, if_pos hall]
  rfl

/-- C7: when `joueurs[username]` exists and already holds an entry for
every requested status (the statuses being members of the `STATUS`
tuple, so no normalization applies), `get_player_matches` performs no
fetch, leaves the store unchanged, and answers purely from the stored
record. -/
theorem C7_complete_record_answers_without_fetch
    (netP : String → Except String PlayerMatches) (joueurs : Joueurs)
    (username : String) (l : List String) (as_dict : Bool) (jr : PlayerMatches)
    (hu : username ≠ "") (hst : ∀ s ∈ l, s ∈ STATUS)
    (hrec : jLookup joueurs username = some jr)
    (hall : ∀ s ∈ l, (pmLookup jr s).isSome = true) :
    get_player_matches netP joueurs username (.seq l) as_dict
      = ⟨listedMatches as_dict jr l, joueurs, false, false⟩ := by
  have hres := resolveStatusArg_seq_of_mem l hst
  have hallb : l.all (fun s => (pmLookup jr s).isSome) = true :=
    List.all_eq_true.mpr hall
  simp [get_player_matches, hu, hres, hrec, hallb]

/-- Witness for C7 at concrete inputs: an `"alice"` record that already
holds both requested statuses is returned without any fetch. -/
theorem C7_complete_record_answers_without_fetch_witness :
    get_player_matches (fun _ => .error "offline")
        [("alice", [("finished", [[("@id", "https://api.chess.com/pub/match/1815536")]]),
                    ("registered", [])])]
        "alice" (.seq ["finished", "registered"]) false
      = ⟨listedMatches false
          [("finished", [[("@id", "https://api.chess.com/pub/match/1815536")]]),
           ("registered", [])] ["finished", "registered"],
        [("alice", [("finished", [[("@id", "https://api.chess.com/pub/match/1815536")]]),
                    ("registered", [])])], false, false⟩ :=
  C7_complete_record_answers_without_fetch (fun _ => .error "offline")
    [("alice", [("finished", [[("@id", "https://api.chess.com/pub/match/1815536")]]),
                ("registered", [])])]
    "alice" ["finished", "registered"] false
    [("finished", [[("@id", "https://api.chess.com/pub/match/1815536")]]),
     ("registered", [])]
    (by decide) (by decide) (by decide) (by decide)

/-! ## Dict lemmas, towards C8 -/

theorem pmLookup_nil (k : String) : pmLookup [] k = none := rfl

theorem pmLookup_cons (p : String × List MatchInfo) (ps : PlayerMatches)
    (k : String) :
    pmLookup (p :: ps) k = if p.1 == k then some p.2 else pmLookup ps k := by
  simp only [pmLookup, List.find?]
  cases h : (p.1 == k) <;> simp [h]

theorem pmLookup_pmSet_self (d : PlayerMatches) (k : String)
    (v : List MatchInfo) : pmLookup (pmSet d k v) k = some v := by
  induction d with
  | nil => simp [pmSet, pmLookup_cons]
  | cons p ps ih =>
    by_cases h : p.1 = k
    · simp [pmSet, h, pmLookup_cons]
    · simp [pmSet, h, pmLookup_cons, ih]

theorem pmLookup_pmSet_ne (d : PlayerMatches) (k : String) (v : List MatchInfo)
    (k' : String) (h : k' ≠ k) : pmLookup (pmSet d k v) k' = pmLookup d k' := by
  induction d with
  | nil => simp [pmSet, pmLookup_cons, pmLookup_nil, h.symm]
  | cons p ps ih =>
    by_cases hp : p.1 = k
    · simp [pmSet, hp, pmLookup_cons, h.symm]
    · simp only [pmSet, hp, if_false, pmLookup_cons, ih]

theorem pmUnion_cons (d : PlayerMatches) (p : String × List MatchInfo)
    (rest : PlayerMatches) :
    pmUnion d (p :: rest) = pmUnion (pmSet d p.1 p.2) rest := rfl

theorem pmLookup_pmUnion_of_none :
    ∀ (pm d : PlayerMatches) (k : String), pmLookup pm k = none →
      pmLookup (pmUnion d pm) k = pmLookup d k
  | [], _, _, _ => rfl
  | p :: rest, d, k, h => by
    rw [pmLookup_cons] at h
    by_cases hb : p.1 = k
    · simp [hb] at h
    · rw [pmUnion_cons,
        pmLookup_pmUnion_of_none rest _ k (by simpa [hb] using h),
        pmLookup_pmSet_ne _ _ _ _ (fun e => hb e.symm)]

theorem pmLookup_eq_none_of_not_mem_keys :
    ∀ (pm : PlayerMatches) (k : String), k ∉ pm.map Prod.fst →
      pmLookup pm k = none
  | [], _, _ => rfl
  | p :: rest, k, h => by
    have h1 : ¬(p.1 = k) := fun e => h (by simp [e])
    have h2 : k ∉ rest.map Prod.fst := fun e => h (by simp [e])
    rw [pmLookup_cons]
    simp [h1, pmLookup_eq_none_of_not_mem_keys rest k h2]

theorem pmLookup_pmUnion_of_some :
    ∀ (pm d : PlayerMatches) (k : String) (ms : List MatchInfo),
      (pm.map Prod.fst).Nodup → pmLookup pm k = some ms →
      pmLookup (pmUnion d pm) k = some ms
  | p :: rest, d, k, ms, hnd, h => by
    rw [pmLookup_cons] at h
    rw [pmUnion_cons]
    simp only [List.map_cons, List.nodup_cons] at hnd
    by_cases hb : p.1 = k
    · have hms : p.2 = ms := by simpa [hb] using h
      have hrest : pmLookup rest k = none :=
        pmLookup_eq_none_of_not_mem_keys rest k (hb ▸ hnd.1)
      rw [pmLookup_pmUnion_of_none rest _ k hrest, ← hb, ← hms,
        pmLookup_pmSet_self]
    · exact pmLookup_pmUnion_of_some rest _ k ms hnd.2 (by simpa [hb] using h)

theorem jLookup_cons (p : String × PlayerMatches) (ps : Joueurs) (k : String) :
    jLookup (p :: ps) k = if p.1 == k then some p.2 else jLookup ps k := by
  simp only [jLookup, List.find?]
  cases h : (p.1 == k) <;> simp [h]

theorem jLookup_jSet_self (j : Joueurs) (u : String) (r : PlayerMatches) :
    jLookup (jSet j u r) u = some r := by
  induction j with
  | nil => simp [jSet, jLookup_cons]
  | cons p ps ih =>
    by_cases h : p.1 = u
    · simp [jSet, h, jLookup_cons]
    · simp [jSet, h, jLookup_cons, ih]

/-! ## C8: merge and failure behaviour of `get_player_matches` -/

/-- C8 counterexample: the claim "previously stored status entries are
never overwritten" is false.  `joueurs["alice"]` holds a `"finished"`
entry; requesting `("finished", "registered")` triggers a fetch (because
`"registered"` is missing), and `joueurs[username] |= player_matches`
(data.py:202) replaces the stored `"finished"` entry with the fetched
one. -/
theorem C8_counterexample_overwrite :
    pmLookup ((jLookup [("alice", [("finished", [[("name", "old")]])])]
        "alice").getD []) "finished" = some [[("name", "old")]]
    ∧ pmLookup ((jLookup (get_player_matches
        (fun _ => .ok [("finished", [[("name", "new")]]), ("registered", [])])
        [("alice", [("finished", [[("name", "old")]])])]
        "alice" (.seq ["finished", "registered"]) true).joueurs "alice").getD [])
        "finished" = some [[("name", "new")]]
    ∧ ([[("name", "new")]] : List MatchInfo) ≠ [[("name", "old")]] := by
  refine ⟨rfl, ?_, by decide⟩
  rfl

/-- C8 amended: when a fetch occurs and returns a non-empty mapping, the
record becomes the right-biased dict union `joueurs[username] |=
player_matches`: statuses present in the fetched mapping take the
fetched value (overwriting any previously stored entry), and statuses
absent from it keep their stored value; when the fetch fails, a warning
is reported, the store is left entirely unchanged, and the accessor then
raises `NameError` (the `display` call of data.py:203 is undefined). -/
theorem C8_merge_is_right_biased_union
    (netP : String → Except String PlayerMatches) (joueurs : Joueurs)
    (username : String) (l : List String) (as_dict : Bool) (jr : PlayerMatches)
    (hu : username ≠ "") (hst : ∀ s ∈ l, s ∈ STATUS)
    (hrec : jLookup joueurs username = some jr)
    (hmiss : ¬ l.all (fun s => (pmLookup jr s).isSome) = true) :
    (∀ pm : PlayerMatches,
      netP ("player/" ++ username ++ "/matches") = .ok pm → pm ≠ [] →
      (pm.map Prod.fst).Nodup →
      jLookup (get_player_matches netP joueurs username (.seq l) as_dict).joueurs
          username = some (pmUnion jr pm)
      ∧ (∀ s ms, pmLookup pm s = some ms → pmLookup (pmUnion jr pm) s = some ms)
      ∧ (∀ s, pmLookup pm s = none → pmLookup (pmUnion jr pm) s = pmLookup jr s)
      ∧ (get_player_matches netP joueurs username (.seq l) as_dict).netCalled = true)
    ∧ (∀ msg : String, netP ("player/" ++ username ++ "/matches") = .error msg →
      get_player_matches netP joueurs username (.seq l) as_dict
        = ⟨.error (.nameError "display"), joueurs, true, true⟩) := by
  have hres := resolveStatusArg_seq_of_mem l hst
  constructor
  · intro pm hnet hpm hnd
    have hpm' : pm.isEmpty = false := by
      cases pm with
      | nil => exact absurd rfl hpm
      | cons a b => rfl
    refine ⟨?_, fun s ms h => pmLookup_pmUnion_of_some pm jr s ms hnd h,
      fun s h => pmLookup_pmUnion_of_none pm jr s h, ?_⟩
    · simp [get_player_matches, hu, hres, hrec, hmiss, hnet, hpm',
        jLookup_jSet_self]
    · simp [get_player_matches, hu, hres, hrec, hmiss, hnet, hpm']
  · intro msg hnet
    simp [get_player_matches, hu, hres, hrec, hmiss, hnet]

/-- Witness for C8 amended at concrete inputs: both the successful-fetch
branch (overwrite and preservation) and the failed-fetch branch. -/
theorem C8_merge_is_right_biased_union_witness :
    (jLookup (get_player_matches
        (fun _ => .ok [("finished", [[("name", "new")]]), ("registered", [])])
        [("bob", [("finished", [[("name", "old")]])])]
        "bob" (.seq ["finished", "registered"]) true).joueurs "bob"
      = some (pmUnion [("finished", [[("name", "old")]])]
          [("finished", [[("name", "new")]]), ("registered", [])]))
    ∧ get_player_matches
        (fun _ => (.error "ConnectionError" : Except String PlayerMatches))
        [("bob", [("finished", [[("name", "old")]])])]
        "bob" (.seq ["finished", "registered"]) true
      = ⟨.error (.nameError "display"),
          [("bob", [("finished", [[("name", "old")]])])], true, true⟩ := by
  have h := C8_merge_is_right_biased_union
    (fun _ => .ok [("finished", [[("name", "new")]]), ("registered", [])])
    [("bob", [("finished", [[("name", "old")]])])]
    "bob" ["finished", "registered"] true [("finished", [[("name", "old")]])]
    (by decide) (by decide) (by decide) (by decide)
  have h' := C8_merge_is_right_biased_union
    (fun _ => (.error "ConnectionError" : Except String PlayerMatches))
    [("bob", [("finished", [[("name", "old")]])])]
    "bob" ["finished", "registered"] true [("finished", [[("name", "old")]])]
    (by decide) (by decide) (by decide) (by decide)
  exact ⟨(h.1 [("finished", [[("name", "new")]]), ("registered", [])]
      rfl (by decide) (by decide)).1,
    h'.2 "ConnectionError" rfl⟩

/-! ## C9: which statuses can reach key position -/

theorem statusResolve_ok (t out : List String) (h : statusResolve t = .ok out) :
    out = t ∧ ∀ s ∈ t, s ∈ STATUS := by
  rw [statusResolve] at h
  by_cases hc : t.all (fun s => STATUS.contains s) = true
  · rw [if_pos hc] at h
    injection h with h1
    subst h1
    exact ⟨rfl, fun s hs => by simpa using List.all_eq_true.mp hc s hs⟩
  · rw [if_neg hc] at h
    cases h

/-- C9 counterexample: the closed set is not the three-element one.  The
`STATUS` tuple (data.py:148) also contains the empty string, so
`normalize_status` passes `''` through, and `get_player_matches` with
status `('',)` uses `''` as a mapping key — visible as the `KeyError`
for key `''`. -/
theorem C9_counterexample_empty_string_status :
    normalize_status (.seq ["finished", ""]) = .ok ["finished", ""]
    ∧ ("" ∈ (["finished", ""] : List String))
    ∧ ("" ∉ (["finished", "in_progress", "registered"] : List String))
    ∧ (get_player_matches (fun _ => .ok [("finished", [])]) [("alice", [])]
        "alice" (.seq [""]) true).ret = .error (.keyError "") := by
  refine ⟨rfl, by decide, by decide, rfl⟩

/-- C9 amended: every status list that survives the normalization step
of `get_player_matches` (and hence every status used as a mapping key)
is a subset of the four-element `STATUS` tuple — the three canonical
statuses plus the empty string; any input needing abbreviation
resolution raises `NameError` instead of producing keys. -/
theorem C9_status_keys_subset_STATUS :
    (∀ (status : StatusArg) (out : List String),
      resolveStatusArg status = .ok out → ∀ s ∈ out, s ∈ STATUS)
    ∧ (∀ (status : StatusArg) (out : List String),
      normalize_status status = .ok out → ∀ s ∈ out, s ∈ STATUS) := by
  have hres : ∀ (t out : List String), statusResolve t = .ok out →
      ∀ s ∈ out, s ∈ STATUS := by
    intro t out h
    obtain ⟨he, hm⟩ := statusResolve_ok t out h
    subst he
    exact hm
  have hnorm : ∀ (status : StatusArg) (out : List String),
      normalize_status status = .ok out → ∀ s ∈ out, s ∈ STATUS := by
    intro status out h
    cases status with
    | str s =>
      rw [normalize_status] at h
      dsimp only at h
      split at h
      · split at h
        · cases h
        · exact hres _ _ h
      · split at h
        · exact hres _ _ h
        · exact hres _ _ h
    | seq l => exact hres _ _ h
  refine ⟨?_, hnorm⟩
  intro status out h
  rw [resolveStatusArg] at h
  split at h
  case isTrue hc =>
    injection h with h1
    subst h1
    exact fun s hs => by simpa using List.all_eq_true.mp hc s hs
  case isFalse => exact hnorm _ _ h

/-- Witness for C9 amended at a concrete input. -/
theorem C9_status_keys_subset_STATUS_witness :
    ∀ s ∈ (["in_progress", "registered"] : List String), s ∈ STATUS :=
  C9_status_keys_subset_STATUS.1 (.seq ["in_progress", "registered"])
    ["in_progress", "registered"] rfl

/-! ## C1: the documented test vectors of `normalize_status` -/

/-- C1: on each of the spec's test vectors the abbreviation-resolution
branch of `normalize_status` is reached, and creating the generator
`(ss for ss in standard if ...)` (data.py:235) raises `NameError`
because the global name `standard` is defined nowhere in the repository
(only `STATUS` is, data.py:148); none of the documented tuples is
returned.  The function's own docstring (data.py:216-219) documents the
claimed results, so the claim describes the intent and the code is the
slip. -/
theorem C1_normalize_status_vectors_raise_NameError :
    normalize_status (.str "fi") = .error (.nameError "standard")
    ∧ normalize_status (.str "fi reg") = .error (.nameError "standard")
    ∧ normalize_status (.str "u") = .error (.nameError "standard") :=
  ⟨rfl, rfl, rfl⟩

/-! ## Dedup lemmas, towards C5 -/

theorem mem_dedupAux {α : Type} [DecidableEq α] :
    ∀ (l seen : List α) (x : α), x ∈ dedupAux seen l ↔ x ∈ l ∧ x ∉ seen
  | [], seen, x => by simp [dedupAux]
  | y :: ys, seen, x => by
    by_cases h : y ∈ seen
    · rw [show dedupAux seen (y :: ys) = dedupAux seen ys from by
        simp only [dedupAux, if_pos h]]
      rw [mem_dedupAux ys seen x]
      constructor
      · exact fun ⟨h1, h2⟩ => ⟨List.mem_cons_of_mem y h1, h2⟩
      · rintro ⟨h1, h2⟩
        rcases List.mem_cons.mp h1 with e | h1'
        · exact absurd (e ▸ h) h2
        · exact ⟨h1', h2⟩
    · rw [show dedupAux seen (y :: ys) = y :: dedupAux (y :: seen) ys from by
        simp only [dedupAux, if_neg h]]
      constructor
      · intro hx
        rcases List.mem_cons.mp hx with e | hx'
        · exact ⟨List.mem_cons.mpr (Or.inl e), e ▸ h⟩
        · obtain ⟨h1, h2⟩ := (mem_dedupAux ys (y :: seen) x).mp hx'
          exact ⟨List.mem_cons_of_mem y h1,
            fun hs => h2 (List.mem_cons_of_mem y hs)⟩
      · rintro ⟨h1, h2⟩
        rcases List.mem_cons.mp h1 with e | h1'
        · exact List.mem_cons.mpr (Or.inl e)
        · by_cases e : x = y
          · exact List.mem_cons.mpr (Or.inl e)
          · refine List.mem_cons.mpr (Or.inr ((mem_dedupAux ys (y :: seen) x).mpr
              ⟨h1', fun hx => ?_⟩))
            rcases List.mem_cons.mp hx with e' | hs
            · exact e e'
            · exact h2 hs

theorem nodup_dedupAux {α : Type} [DecidableEq α] :
    ∀ (l seen : List α), (dedupAux seen l).Nodup
  | [], seen => by simp [dedupAux]
  | y :: ys, seen => by
    by_cases h : y ∈ seen
    · simpa only [dedupAux, if_pos h] using nodup_dedupAux ys seen
    · simp only [dedupAux, if_neg h, List.nodup_cons]
      exact ⟨fun hy => ((mem_dedupAux ys (y :: seen) y).mp hy).2
          (List.mem_cons_self y seen),
        nodup_dedupAux ys (y :: seen)⟩

theorem dedupAux_sublist {α : Type} [DecidableEq α] :
    ∀ (l seen : List α), List.Sublist (dedupAux seen l) l
  | [], seen => by simp [dedupAux]
  | y :: ys, seen => by
    by_cases h : y ∈ seen
    · simpa only [dedupAux, if_pos h] using (dedupAux_sublist ys seen).cons y
    · simpa only [dedupAux, if_neg h] using (dedupAux_sublist ys (y :: seen)).cons₂ y

theorem dedupFirst_nodup {α : Type} [DecidableEq α] (l : List α) :
    (dedupFirst l).Nodup := nodup_dedupAux l []

theorem dedupFirst_sublist {α : Type} [DecidableEq α] (l : List α) :
    List.Sublist (dedupFirst l) l := dedupAux_sublist l []

theorem mem_dedupFirst {α : Type} [DecidableEq α] (l : List α) (x : α) :
    x ∈ dedupFirst l ↔ x ∈ l := by
  rw [dedupFirst, mem_dedupAux l [] x]
  simp

/-! ## C5: scraper extraction order, dedup, and the spec's page -/

set_option maxRecDepth 20000 in
/-- C5: with the default pattern, the scraper returns the captured
digit-run IDs of the page as strings, in first-occurrence order with
duplicates collapsed: the result is exactly the order-preserving dedup
of the raw capture sequence — duplicate-free, a subsequence of it (so
first-occurrence order is preserved), and containing exactly its
elements; and on the spec's page holding the two
`club/matches/...` hrefs it returns `["1803600", "1869975"]`. -/
theorem C5_scraper_returns_deduped_ids_in_order :
    (∀ page : List Char,
      get_matches (String.mk page)
        = (dedupFirst (findAll page)).map (fun l => String.mk l)
      ∧ (get_matches (String.mk page)).Nodup
      ∧ List.Sublist (dedupFirst (findAll page)) (findAll page)
      ∧ (∀ x, x ∈ dedupFirst (findAll page) ↔ x ∈ findAll page))
    ∧ get_matches ("Toulouse - Dieppe Resultat href=\"https://www.chess.com/club/matches/team-nantes-1/1803600\" Rennes - Tahiti Resultat href=\"https://www.chess.com/club/matches/1869975\"")
      = ["1803600", "1869975"] := by
  refine ⟨fun page => ⟨rfl, ?_, dedupFirst_sublist _, fun x => mem_dedupFirst _ x⟩,
    by decide⟩
  exact (dedupFirst_nodup (findAll page)).map (fun a b h => by injection h)

end CFE
